import Mathlib

/-!
Shallow embedding of the harmonicvisualizer music-theory core
(src/lib/music/notes|chords|keys|tunings|harmonics|fretboard and the
chord-route LLM translation), with theorems settling the spec claims.

JS `number` values are modelled as `Int`/`Nat` (all pitch arithmetic in the
source is integral) and as `ℝ` for the logarithmic harmonic-position search.
Fallible JS code (regex mismatch, `Array` of negative length) is modelled
with `Option`.
-/

namespace HarmonicVisualizer

/-! ### notes.ts (src/unnamed/part_003, second chunk) -/

/-- Source type `PitchClass = 0 | 1 | ... | 11`; the tables below only
produce values below 12. -/
abbrev PitchClass := Nat

/-- `NOTE_TO_PC` table, in source order. -/
def NOTE_TO_PC : List (String × Nat) :=
  [("C", 0), ("B#", 0), ("C#", 1), ("Db", 1), ("D", 2), ("D#", 3), ("Eb", 3),
   ("E", 4), ("Fb", 4), ("E#", 5), ("F", 5), ("F#", 6), ("Gb", 6), ("G", 7),
   ("G#", 8), ("Ab", 8), ("A", 9), ("A#", 10), ("Bb", 10), ("B", 11), ("Cb", 11)]

def SHARP_NAMES : List String :=
  ["C", "C#", "D", "D#", "E", "F"] ++ ["F#", "G", "G#", "A", "A#", "B"]

def FLAT_NAMES : List String :=
  ["C", "Db", "D", "Eb", "E", "F", "Gb", "G", "Ab", "A", "Bb", "B"]

structure ParsedNote where
  name : String
  pitchClass : PitchClass
  octave : Option Int
deriving Repr, DecidableEq

/-- JS `String.prototype.trim` modelled over the character list. -/
def jsTrim (s : String) : String :=
  String.mk (((s.toList.dropWhile Char.isWhitespace).reverse.dropWhile
    Char.isWhitespace).reverse)

/-- The letter class `[A-Ga-g]` of the note regex. -/
def isNoteLetter (c : Char) : Bool :=
  c ∈ ['A', 'B', 'C', 'D', 'E', 'F', 'G', 'a', 'b', 'c', 'd', 'e', 'f', 'g']

/-- One-or-more decimal digits (the `\d+` group), evaluated as a number. -/
def parseDigits (cs : List Char) : Option Nat :=
  if cs ≠ [] ∧ cs.all Char.isDigit then
    some (cs.foldl (fun acc c => acc * 10 + (c.toNat - 48)) 0)
  else none

/-- The optional `(-?\d+)?$` octave group: `none` = regex failure,
`some none` = group absent, `some (some k)` = octave `k`. -/
def parseOctavePart : List Char → Option (Option Int)
  | [] => some none
  | '-' :: cs => (parseDigits cs).map (fun n => some (-(n : Int)))
  | cs => (parseDigits cs).map (fun n => some ((n : Int)))

/-- The `([#b]?)` group: optional accidental and the remaining characters. -/
def noteAccSplit (rest : List Char) : Option Char × List Char :=
  match rest with
  | a :: rs => if a = '#' ∨ a = 'b' then (some a, rs) else (none, rest)
  | [] => ((none : Option Char), ([] : List Char))

/-- `parseNote` (regex `^([A-Ga-g])([#b]?)(-?\d+)?$` on the trimmed input,
then the `NOTE_TO_PC` lookup); the early returns are an `Option` chain. -/
def parseNote (input : String) : Option ParsedNote :=
  match (jsTrim input).toList with
  | [] => none
  | c :: rest =>
    if isNoteLetter c then
      (parseOctavePart (noteAccSplit rest).2).bind (fun octave =>
        let symbol := String.mk (c.toUpper :: (match (noteAccSplit rest).1 with
          | some a => [a]
          | none => []))
        (NOTE_TO_PC.lookup symbol).map (fun pc =>
          { name := symbol, pitchClass := pc, octave := octave }))
    else none

/-- `pitchClassToName` (the argument is integral in every call site, so
`Math.round` is the identity). -/
def pitchClassToName (pc : Nat) (preferSharps : Bool := true) : String :=
  let index := ((pc % 12) + 12) % 12
  (if preferSharps then SHARP_NAMES else FLAT_NAMES).getD index ""

/-- `midiToNote`; `Math.floor(rounded / 12)` is floor division. -/
def midiToNote (midi : Int) (preferSharps : Bool := true) : ParsedNote :=
  let octave : Int := Int.fdiv midi 12 - 1
  let pitchClass : Nat := (((midi % 12) + 12) % 12).toNat
  { name := pitchClassToName pitchClass preferSharps
    pitchClass := pitchClass
    octave := some octave }

/-- `toMidi` with the source default octave 4. -/
def toMidi (pitchClass : Nat) (octave : Int := 4) : Int :=
  (octave + 1) * 12 + (pitchClass : Int)

/-- Insertion step of `new Set` iteration order (first occurrence wins). -/
def insertUnique (l : List Nat) (v : Nat) : List Nat :=
  if v ∈ l then l else l ++ [v]

/-- `uniquePitchClasses`: normalize mod 12, dedupe keeping first occurrences. -/
def uniquePitchClasses (values : List Nat) : List Nat :=
  (values.map (fun v => ((v % 12) + 12) % 12)).foldl insertUnique []

/-! ### keys.ts (src/unnamed/part_003, first chunk) -/

inductive Mode
  | major
  | minor
deriving Repr, DecidableEq

def modeLabel : Mode → String
  | .major => "major"
  | .minor => "minor"

structure KeySignature where
  root : PitchClass
  label : String
  mode : Mode
  scale : List PitchClass
deriving Repr, DecidableEq

def MAJOR_KEY_NAME : List (Nat × String) :=
  [(0, "C"), (1, "Db"), (2, "D"), (3, "Eb"), (4, "E"), (5, "F"), (6, "F#"),
   (7, "G"), (8, "Ab"), (9, "A"), (10, "Bb"), (11, "B")]

def MINOR_KEY_NAME : List (Nat × String) :=
  [(0, "C"), (1, "C#"), (2, "D"), (3, "Eb"), (4, "E"), (5, "F"), (6, "F#"),
   (7, "G"), (8, "G#"), (9, "A"), (10, "Bb"), (11, "B")]

def MAJOR_INTERVALS : List Nat := [0, 2, 4, 5, 7, 9, 11]

def MINOR_INTERVALS : List Nat := [0, 2, 3, 5, 7, 8, 10]

def buildScale (root : Nat) (mode : Mode) : List Nat :=
  (match mode with
    | .major => MAJOR_INTERVALS
    | .minor => MINOR_INTERVALS).map (fun n => (root + n) % 12)

/-- `keySetFromRoot` with the root-specific display-name tables and their
`?? pitchClassToName(root)` fallback. -/
def keySetFromRoot (root : Nat) (mode : Mode) : KeySignature :=
  let displayName :=
    match mode with
    | .major => (MAJOR_KEY_NAME.lookup root).getD (pitchClassToName root)
    | .minor => (MINOR_KEY_NAME.lookup root).getD (pitchClassToName root)
  { root := root
    label := displayName ++ " " ++ modeLabel mode
    mode := mode
    scale := buildScale root mode }

/-- `ALL_KEYS`: pc 0..11, major then minor for each. -/
def ALL_KEYS : List KeySignature :=
  (List.range 12).flatMap (fun pc =>
    [keySetFromRoot pc .major, keySetFromRoot pc .minor])

def isPitchClassInKey (pc : Nat) (key : Option KeySignature) : Bool :=
  match key with
  | none => false
  | some k => k.scale.contains (((pc % 12) + 12) % 12)

/-! ### tunings.ts (src/unnamed/part_003, third chunk) -/

inductive TuningPreset
  | standard
  | fourths
  | custom
deriving Repr, DecidableEq

structure StringNote where
  label : String
  pitchClass : PitchClass
  midi : Int
deriving Repr, DecidableEq

structure TuningResult where
  strings : List StringNote
  errors : List String
deriving Repr, DecidableEq

def STANDARD_BASE : List Int := [40, 45, 50, 55, 59, 64]

def FOURTHS_BASE : List Int := [40, 45, 50, 55, 60, 65]

def BASS_4_BASE : List Int := [28, 33, 38, 43]

def BASS_5_BASE : List Int := [28, 33, 38, 43, 48]

/-- The `while (extended.length < stringCount)` loop of `expandLowStrings`,
run `n` times; each pass unshifts `lowest - 5`. -/
def extendLowLoop (l : List Int) : Nat → List Int
  | 0 => l
  | n + 1 => extendLowLoop ((l.headI - 5) :: l) n

def expandLowStrings (base : List Int) (stringCount : Nat) : List Int :=
  if stringCount ≤ base.length then base.drop (base.length - stringCount)
  else extendLowLoop base (stringCount - base.length)

/-- `presetTuning` (part_003 variant: 4/5 strings select the bass bases). -/
def presetTuning (preset : TuningPreset) (stringCount : Nat) : List StringNote :=
  let base :=
    if stringCount = 4 then BASS_4_BASE
    else if stringCount = 5 then BASS_5_BASE
    else match preset with
      | .fourths => FOURTHS_BASE
      | _ => STANDARD_BASE
  (expandLowStrings base stringCount).map (fun midi =>
    let note := midiToNote midi
    { label := note.name, midi := midi, pitchClass := note.pitchClass })

/-- Body of the `forEach` in `parseCustomTuning` for the indexed input `p`. -/
def customTuningStep (fallbackOctave : Int) (acc : TuningResult)
    (p : Nat × String) : TuningResult :=
  match parseNote p.2 with
  | none =>
    { acc with errors := acc.errors ++
        ["String " ++ toString (p.1 + 1) ++ ": invalid note \"" ++ p.2 ++ "\""] }
  | some parsed =>
    let octave := parsed.octave.getD fallbackOctave
    let midi := toMidi parsed.pitchClass octave
    { acc with strings := acc.strings ++
        [{ label := pitchClassToName parsed.pitchClass
           pitchClass := parsed.pitchClass
           midi := midi }] }

/-- `parseCustomTuning`: `forEach` with index, collecting parsed strings and
error messages independently. -/
def parseCustomTuning (inputs : List String) (fallbackOctave : Int := 3) :
    TuningResult :=
  inputs.enum.foldl (customTuningStep fallbackOctave) ⟨[], []⟩

/-- `buildTuning`. In the custom branch the source pads with
`Array(stringCount - customInputs.length).fill("C3")`; a JS `Array` of
negative length throws `RangeError`, modelled as `none`. -/
def buildTuning (preset : TuningPreset) (stringCount : Nat)
    (customInputs : List String := []) : Option TuningResult :=
  match preset with
  | .custom =>
    if customInputs.length = stringCount then
      some (parseCustomTuning customInputs)
    else if customInputs.length < stringCount then
      some (parseCustomTuning
        (customInputs ++ List.replicate (stringCount - customInputs.length) "C3"))
    else none
  | _ => some { strings := presetTuning preset stringCount, errors := [] }

/-! ### chords.ts (src/lib/music/chords.ts) -/

inductive ChordSource
  | localSrc
  | llm
deriving Repr, DecidableEq

structure ParsedChord where
  root : ParsedNote
  noteNames : Option (List String) := none
  rootName : Option String := none
  pitchClasses : List PitchClass
  label : String
  source : ChordSource
deriving Repr, DecidableEq

/-- `QUALITY_MAP`, in source order. -/
def QUALITY_MAP : List (String × List Nat) :=
  [("", [0, 4, 7]), ("maj", [0, 4, 7]), ("M", [0, 4, 7]), ("+", [0, 4, 8]),
   ("aug", [0, 4, 8]), ("m", [0, 3, 7]), ("min", [0, 3, 7]), ("-", [0, 3, 7]),
   ("dim", [0, 3, 6]), ("o", [0, 3, 6]), ("sus2", [0, 2, 7]), ("sus4", [0, 5, 7])]

def addExtension (intervals : List Nat) (ext : Nat) : List Nat :=
  if ext ∈ intervals then intervals else intervals ++ [ext]

/-- `intervals[intervals.indexOf(a)] = b` (no-op when `a` is absent). -/
def replaceFirst : List Nat → Nat → Nat → List Nat
  | [], _, _ => []
  | x :: xs, a, b => if x = a then b :: xs else x :: replaceFirst xs a b

/-- `pat` occurs as a contiguous run inside `s`. -/
def hasInfix (pat : List Char) : List Char → Bool
  | [] => pat.isEmpty
  | c :: rest => pat.isPrefixOf (c :: rest) || hasInfix pat rest

/-- Substring presence (`/pat/.test(s)` for a literal pattern). -/
def containsSub (s pat : String) : Bool :=
  hasInfix pat.toList s.toList

def startsWithStr (s p : String) : Bool :=
  p.toList.isPrefixOf s.toList

def dropStr (s : String) (n : Nat) : String :=
  String.mk (s.toList.drop n)

/-- Root split `^([A-Ga-g][#b]?)(.*)$`. -/
def splitChordRoot (trimmed : String) : Option (String × String) :=
  match trimmed.toList with
  | [] => none
  | c :: rest =>
    if isNoteLetter c then
      match rest with
      | a :: rs =>
        if a = '#' ∨ a = 'b' then some (String.mk [c, a], String.mk rs)
        else some (String.mk [c], String.mk rest)
      | [] => some (String.mk [c], "")
    else none

/-- `^sus(2|4)` prefix match. -/
def matchSus (q : String) : Option String :=
  if startsWithStr q "sus2" then some "sus2"
  else if startsWithStr q "sus4" then some "sus4"
  else none

/-- The ordered alternation `^(maj|min|dim|aug|M|m|\+|-|o)`. -/
def QUALITY_TOKENS : List String :=
  ["maj", "min", "dim", "aug", "M", "m", "+", "-", "o"]

def matchQuality (q : String) : Option String :=
  QUALITY_TOKENS.find? (fun t => startsWithStr q t)

/-- `/(^|[^a-zA-Z])7/` scan: a `'7'` at the start or after a non-letter. -/
def dom7After : Char → List Char → Bool
  | _, [] => false
  | prev, c :: rest => (c = '7' ∧ ¬ prev.isAlpha) ∨ dom7After c rest

def hasDom7Test (s : String) : Bool :=
  match s.toList with
  | [] => false
  | c :: rest => c = '7' ∨ dom7After c rest

/-- Extension/alteration pipeline of `parseChordLocally` (lines 59-80). -/
def chordIntervals (qualityKey : String) (base : List Nat) (remainder : String) :
    List Nat :=
  let intervals := base
  let hasMaj7 := containsSub remainder "maj7" ∨ containsSub remainder "Î”7" ∨
    containsSub remainder "M7"
  let hasDom7 := hasDom7Test remainder ∧ ¬ hasMaj7
  let hasMin7 := startsWithStr qualityKey "m" ∧ hasDom7
  let intervals :=
    if hasMaj7 then addExtension intervals 11
    else if hasDom7 ∨ hasMin7 then addExtension intervals 10
    else intervals
  let intervals := if containsSub remainder "9" then addExtension intervals 14
    else intervals
  let intervals := if containsSub remainder "11" then addExtension intervals 17
    else intervals
  let intervals := if containsSub remainder "13" then addExtension intervals 21
    else intervals
  let intervals := if containsSub remainder "b9" then addExtension intervals 13
    else intervals
  let intervals := if containsSub remainder "b13" then addExtension intervals 20
    else intervals
  let intervals :=
    if containsSub remainder "b5" ∨ containsSub remainder "dim5" then
      replaceFirst intervals 7 6
    else intervals
  let intervals :=
    if containsSub remainder "#5" ∨ containsSub remainder "+5" then
      replaceFirst intervals 7 8
    else intervals
  intervals

/-- The quality-token step: `(qualityKey, remainder)` after the `sus` and
quality prefix matches (empty key when neither matches). -/
def qualitySplit (qualityRaw : String) : String × String :=
  match matchSus qualityRaw with
  | some k => (k, dropStr qualityRaw k.length)
  | none =>
    match matchQuality qualityRaw with
    | some k => (k, dropStr qualityRaw k.length)
    | none => ("", qualityRaw)

def parseChordLocally (input : String) : Option ParsedChord :=
  let trimmed := jsTrim input
  (splitChordRoot trimmed).bind (fun rs =>
    let qualityRaw := jsTrim rs.2
    (parseNote rs.1).bind (fun root =>
      let qr := qualitySplit qualityRaw
      (QUALITY_MAP.lookup qr.1).map (fun base =>
        let intervals := chordIntervals qr.1 base qr.2
        let pcs := uniquePitchClasses
          (intervals.map (fun i => (((root.pitchClass + i) % 12) + 12) % 12))
        { root := root
          pitchClasses := pcs
          label := pitchClassToName root.pitchClass ++ qualityRaw
          source := .localSrc })))

/-! ### LLM chord translation (src/unnamed/part_000, `callLlm` lines 61-76:
the translation of a schema-validated response into a `ParsedChord`). -/

structure LlmChord where
  root : String
  notes : List String
deriving Repr, DecidableEq

def llmChordOfResponse (parsed : LlmChord) : Option ParsedChord :=
  match parseNote parsed.root with
  | none => none
  | some root =>
    let pcs := parsed.notes.filterMap (fun n => (parseNote n).map (·.pitchClass))
    if pcs.length = 0 then none
    else some { root := root
                pitchClasses := pcs
                label := pitchClassToName root.pitchClass ++ " chord"
                source := .llm }

/-! ### harmonics.ts (src/lib/music/fretboard.ts, second chunk)

`Math.log2`/`Math.round` arithmetic is modelled over `ℝ` (hence these
definitions are noncomputable); the search state pairs the current best
point with `Option ℝ` for `bestError` (`none` = the initial `Infinity`).
The source field `partial` is a reserved word here and is rendered as
`overtone`. -/

structure HarmonicPoint where
  fret : ℝ
  overtone : Nat
  semitoneShift : Int

def HARMONIC_FRETS : List ℝ := [3.2, 4, 5, 7, 9, 12, 16, 19]

/-- `fretForFraction(k, n) = -12 * Math.log2(1 - k / n)`. -/
noncomputable def fretForFraction (k n : Nat) : ℝ :=
  -12 * Real.logb 2 (1 - (k : ℝ) / (n : ℝ))

/-- The loop order of `nearestPartial`: `n` from 2 to 12, `k` from 1 to
`n - 1`, as `(n, k)` pairs. -/
def overtonePairs : List (Nat × Nat) :=
  (List.range 11).flatMap (fun i =>
    (List.range (i + 1)).map (fun j => (i + 2, j + 1)))

/-- Body of the `nearestPartial` search loop for candidate fret `fret`. -/
noncomputable def overtoneStep (fret : ℝ) (state : HarmonicPoint × Option ℝ)
    (p : Nat × Nat) : HarmonicPoint × Option ℝ :=
  let predicted := fretForFraction p.2 p.1
  let err := |predicted - fret|
  match state.2 with
  | none =>
    (⟨fret, p.1, round (12 * Real.logb 2 (p.1 : ℝ))⟩, some err)
  | some bestError =>
    if err < bestError then
      (⟨fret, p.1, round (12 * Real.logb 2 (p.1 : ℝ))⟩, some err)
    else (state.1, some bestError)

/-- `nearestPartial` (renamed): best `{fret, partial, semitoneShift}` over
the fraction search, starting from `{fret, 2, 12}` with error `Infinity`. -/
noncomputable def nearestOvertone (fret : ℝ) : HarmonicPoint :=
  (overtonePairs.foldl (overtoneStep fret) (⟨fret, 2, 12⟩, none)).1

noncomputable def HARMONIC_POINTS : List HarmonicPoint :=
  HARMONIC_FRETS.map nearestOvertone

structure HarmonicMarker where
  fret : ℝ
  overtone : Nat
  label : String
  pitchClass : PitchClass
  octave : Option Int

/-- `computeHarmonicsForString`. -/
noncomputable def computeHarmonicsForString (openMidi : Int)
    (preferSharps : Bool := true) : List HarmonicMarker :=
  HARMONIC_POINTS.map (fun point =>
    let note := midiToNote (openMidi + point.semitoneShift) preferSharps
    { fret := point.fret
      overtone := point.overtone
      label := note.name ++ (match note.octave with
        | some o => toString o
        | none => "")
      pitchClass := note.pitchClass
      octave := note.octave })

/-! ### fretboard.ts (src/lib/music/fretboard.ts, first chunk) -/

structure EnrichedHarmonic where
  fret : ℝ
  overtone : Nat
  label : String
  pitchClass : PitchClass
  octave : Option Int
  stringIndex : Nat
  isInKey : Bool
  isRoot : Bool
  inChord : Bool

/-- `buildFretboardHarmonics`: per string, enrich each harmonic marker with
the key/chord membership flags. -/
noncomputable def buildFretboardHarmonics (tuning : List StringNote)
    (key : Option KeySignature) (chord : Option ParsedChord) :
    List EnrichedHarmonic :=
  tuning.enum.flatMap (fun p =>
    (computeHarmonicsForString p.2.midi).map (fun h =>
      let inKey := match key with
        | some k => isPitchClassInKey h.pitchClass (some k)
        | none => false
      let inChord := match chord with
        | some c => c.pitchClasses.contains h.pitchClass
        | none => false
      { fret := h.fret
        overtone := h.overtone
        label := h.label
        pitchClass := h.pitchClass
        octave := h.octave
        stringIndex := p.1
        isInKey := inKey
        isRoot := match key with
          | some k => h.pitchClass = k.root
          | none => false
        inChord := inChord }))

/-! ## Theorems -/

/-- C1: at the failing input `"Cmaj7"` the local parser returns a chord with
pitch classes `[0, 4, 7, 10]` (a dominant seventh): the quality match has
already consumed `"maj"`, so the `maj7` scan over the remainder `"7"` cannot
fire and the bare-7 branch adds interval 10 instead of 11. Root, label and
non-nullness agree with the claim; the pitch-class set does not. -/
theorem parseChordLocally_Cmaj7_is_dominant :
    parseChordLocally "Cmaj7" =
      some { root := { name := "C", pitchClass := 0, octave := none }
             pitchClasses := [0, 4, 7, 10]
             label := "Cmaj7"
             source := .localSrc } := by
  decide

/-- C2 counterexample: `"Cxyz"` has a valid root `C` and a quality token
matching no table entry, yet `parseChordLocally` returns a chord (the major
triad with the raw text echoed into the label), not `null`. -/
theorem parseChordLocally_Cxyz_not_null :
    parseChordLocally "Cxyz" =
      some { root := { name := "C", pitchClass := 0, octave := none }
             pitchClasses := [0, 4, 7]
             label := "Cxyz"
             source := .localSrc } := by
  decide

/-- C2 amended: when the leading root token parses but neither the `sus`
prefix nor a quality token matches, `parseChordLocally` falls back to the
empty quality key (major-triad base) and returns a non-null chord. -/
theorem parseChordLocally_unknown_quality_falls_back (s rootSym restRaw : String)
    (root : ParsedNote)
    (hsplit : splitChordRoot (jsTrim s) = some (rootSym, restRaw))
    (hroot : parseNote rootSym = some root)
    (hsus : matchSus (jsTrim restRaw) = none)
    (hq : matchQuality (jsTrim restRaw) = none) :
    parseChordLocally s =
      some { root := root
             pitchClasses := uniquePitchClasses
               ((chordIntervals "" [0, 4, 7] (jsTrim restRaw)).map
                 (fun i => (((root.pitchClass + i) % 12) + 12) % 12))
             label := pitchClassToName root.pitchClass ++ jsTrim restRaw
             source := .localSrc } := by
  have hqs : qualitySplit (jsTrim restRaw) = ("", jsTrim restRaw) := by
    unfold qualitySplit
    rw [hsus, hq]
  simp only [parseChordLocally, hsplit, hroot, hqs, Option.some_bind]
  rfl

/-- C2 amended, witness at `"Cxyz"`. -/
theorem parseChordLocally_unknown_quality_falls_back_witness :
    splitChordRoot (jsTrim "Cxyz") = some ("C", "xyz") ∧
    parseNote "C" = some { name := "C", pitchClass := 0, octave := none } ∧
    matchSus (jsTrim "xyz") = none ∧
    matchQuality (jsTrim "xyz") = none ∧
    parseChordLocally "Cxyz" =
      some { root := { name := "C", pitchClass := 0, octave := none }
             pitchClasses := uniquePitchClasses
               ((chordIntervals "" [0, 4, 7] (jsTrim "xyz")).map
                 (fun i => (((0 + i) % 12) + 12) % 12))
             label := pitchClassToName 0 ++ jsTrim "xyz"
             source := .localSrc } :=
  ⟨by decide, by decide, by decide, by decide,
    parseChordLocally_unknown_quality_falls_back "Cxyz" "C" "xyz" _
      (by decide) (by decide) (by decide) (by decide)⟩

/-- Mapping a built `StringNote` back to its midi recovers the input list. -/
lemma map_midi_of_mk (values : List Int) :
    (values.map (fun midi =>
      ({ label := (midiToNote midi).name, midi := midi,
         pitchClass := (midiToNote midi).pitchClass } : StringNote))).map
      (fun s => s.midi) = values := by
  induction values with
  | nil => rfl
  | cons v vs ih => simpa using ih

lemma presetTuning_map_midi (preset : TuningPreset) (sc : Nat) :
    (presetTuning preset sc).map (fun s => s.midi) =
      expandLowStrings
        (if sc = 4 then BASS_4_BASE
         else if sc = 5 then BASS_5_BASE
         else match preset with
           | .fourths => FOURTHS_BASE
           | _ => STANDARD_BASE) sc :=
  map_midi_of_mk _

/-- Closed form of the unshift loop: `m` entries descending by fourths are
prepended to `l`. -/
lemma extendLowLoop_eq : ∀ (m : Nat) (l : List Int),
    extendLowLoop l m =
      (List.range m).map (fun (i : Nat) => l.headI - 5 * ((m : Int) - (i : Int))) ++ l := by
  intro m
  induction m with
  | zero => intro l; simp [extendLowLoop]
  | succ n ih =>
    intro l
    rw [show extendLowLoop l (n + 1) = extendLowLoop ((l.headI - 5) :: l) n from rfl,
      ih, List.range_succ, List.map_append]
    simp only [List.map_cons, List.map_nil, List.headI_cons]
    have hfun : (List.range n).map (fun i : Nat => l.headI - 5 - 5 * ((n : Int) - (i : Int))) =
        (List.range n).map (fun i : Nat => l.headI - 5 * (((n : Int) + 1) - (i : Int))) := by
      apply List.map_congr_left
      intro i _
      ring
    have hval : l.headI - 5 * ((n : Int) + 1 - (n : Int)) = l.headI - 5 := by
      ring
    push_cast
    rw [hfun, hval]
    simp

lemma extendLowLoop_length : ∀ (m : Nat) (l : List Int),
    (extendLowLoop l m).length = m + l.length := by
  intro m
  induction m with
  | zero => intro l; simp [extendLowLoop]
  | succ n ih =>
    intro l
    rw [show extendLowLoop l (n + 1) = extendLowLoop ((l.headI - 5) :: l) n from rfl, ih]
    simp
    omega

lemma expandLowStrings_length (base : List Int) (sc : Nat) :
    (expandLowStrings base sc).length = sc := by
  unfold expandLowStrings
  split
  · rw [List.length_drop]
    omega
  · rw [extendLowLoop_length]
    omega

/-- C3: string-count scaling of `presetTuning`. Counts 4 and 5 select the
bass bases anchored at low E1 (midi 28); other counts up to 6 keep the
highest strings of the guitar base for the preset; counts above 6 extend the
guitar base downward, each added low string 5 semitones (a fourth) below the
previous lowest. -/
theorem presetTuning_string_count_scaling (preset : TuningPreset) (sc : Nat) :
    (sc = 4 → (presetTuning preset sc).map (fun s => s.midi) = BASS_4_BASE) ∧
    (sc = 5 → (presetTuning preset sc).map (fun s => s.midi) = BASS_5_BASE) ∧
    BASS_4_BASE.headI = 28 ∧ BASS_5_BASE.headI = 28 ∧
    (sc ≠ 4 → sc ≠ 5 → sc ≤ 6 →
      (presetTuning preset sc).map (fun s => s.midi) =
        (match preset with
          | .fourths => FOURTHS_BASE
          | _ => STANDARD_BASE).drop (6 - sc)) ∧
    (6 < sc →
      (presetTuning preset sc).map (fun s => s.midi) =
        (List.range (sc - 6)).map (fun (i : Nat) =>
          (match preset with
            | .fourths => FOURTHS_BASE
            | _ => STANDARD_BASE).headI - 5 * (((sc - 6 : Nat) : Int) - (i : Int)))
        ++ (match preset with
          | .fourths => FOURTHS_BASE
          | _ => STANDARD_BASE)) := by
  refine ⟨?_, ?_, by decide, by decide, ?_, ?_⟩
  · rintro rfl
    cases preset <;> decide
  · rintro rfl
    cases preset <;> decide
  · intro h4 h5 h6
    rw [presetTuning_map_midi, if_neg h4, if_neg h5]
    cases preset <;>
      · dsimp only
        simp only [expandLowStrings, STANDARD_BASE, FOURTHS_BASE, List.length_cons,
          List.length_nil]
        rw [if_pos h6]
  · intro h6
    rw [presetTuning_map_midi, if_neg (by omega), if_neg (by omega)]
    cases preset <;>
      · dsimp only
        simp only [expandLowStrings, STANDARD_BASE, FOURTHS_BASE, List.length_cons,
          List.length_nil]
        rw [if_neg (show ¬ sc ≤ 6 by omega), extendLowLoop_eq]

/-- C3, witness at the 4-string bass case and the 7-string extension case. -/
theorem presetTuning_string_count_scaling_witness :
    ((4 : Nat) = 4 ∧ (presetTuning .standard 4).map (fun s => s.midi) = BASS_4_BASE) ∧
    (6 < 7 ∧ (presetTuning .standard 7).map (fun s => s.midi) =
      (List.range (7 - 6)).map (fun (i : Nat) =>
        STANDARD_BASE.headI - 5 * (((7 - 6 : Nat) : Int) - (i : Int)))
      ++ STANDARD_BASE) :=
  ⟨⟨rfl, (presetTuning_string_count_scaling .standard 4).1 rfl⟩,
   ⟨by decide, (presetTuning_string_count_scaling .standard 7).2.2.2.2.2 (by decide)⟩⟩

/-- C4 counterexample: two custom inputs for a one-string instrument make
the padding step evaluate `Array(-1)`, which throws in JS (modelled `none`):
`buildTuning` is not total when more custom inputs than strings are given. -/
theorem buildTuning_overfull_throws :
    buildTuning .custom 1 ["C3", "C3"] = none := by
  decide

lemma foldl_customTuningStep_count (fo : Int) :
    ∀ (ps : List (Nat × String)) (acc : TuningResult),
      (ps.foldl (customTuningStep fo) acc).strings.length +
        (ps.foldl (customTuningStep fo) acc).errors.length =
      acc.strings.length + acc.errors.length + ps.length := by
  intro ps
  induction ps with
  | nil => intro acc; simp
  | cons p t ih =>
    intro acc
    rw [List.foldl_cons, ih]
    unfold customTuningStep
    cases parseNote p.2 <;> simp <;> omega

lemma parseCustomTuning_count (inputs : List String) (fo : Int) :
    (parseCustomTuning inputs fo).strings.length +
      (parseCustomTuning inputs fo).errors.length = inputs.length := by
  unfold parseCustomTuning
  rw [foldl_customTuningStep_count]
  simp

lemma presetTuning_length (preset : TuningPreset) (sc : Nat) :
    (presetTuning preset sc).length = sc := by
  unfold presetTuning
  rw [List.length_map, expandLowStrings_length]

/-- C4 amended: `buildTuning` returns a `TuningResult` (never throws) for
every preset, string count and custom input list with at most `stringCount`
entries, each custom input contributing either a parsed string or a
collected error message; with more custom inputs than `stringCount` the JS
padding step throws instead. -/
theorem buildTuning_total_up_to_stringCount (preset : TuningPreset) (sc : Nat)
    (inputs : List String) (h : inputs.length ≤ sc) :
    ∃ r, buildTuning preset sc inputs = some r ∧
      r.strings.length + r.errors.length = sc := by
  cases preset with
  | custom =>
    by_cases he : inputs.length = sc
    · refine ⟨parseCustomTuning inputs, ?_, ?_⟩
      · simp [buildTuning, he]
      · rw [parseCustomTuning_count, he]
    · have hlt : inputs.length < sc := lt_of_le_of_ne h he
      refine ⟨parseCustomTuning
        (inputs ++ List.replicate (sc - inputs.length) "C3"), ?_, ?_⟩
      · simp [buildTuning, he, hlt]
      · rw [parseCustomTuning_count]
        simp
        omega
  | standard =>
    exact ⟨_, rfl, by simp [presetTuning_length]⟩
  | fourths =>
    exact ⟨_, rfl, by simp [presetTuning_length]⟩

/-- C4 amended, witness: two custom inputs (one of them unparsable) on a
two-string count. -/
theorem buildTuning_total_up_to_stringCount_witness :
    (["E2", "zz"] : List String).length ≤ 2 ∧
    (∃ r, buildTuning .custom 2 ["E2", "zz"] = some r ∧
      r.strings.length + r.errors.length = 2) :=
  ⟨by decide, buildTuning_total_up_to_stringCount .custom 2 ["E2", "zz"] (by decide)⟩

/-- C5 counterexample: the LLM-route translation of the validated response
`{root: "C", notes: ["E", "G"]}` yields a chord whose root pitch class 0 is
not a member of its pitch classes `[4, 7]` — the route never forces the root
into the tone set. -/
theorem llmChord_root_not_in_pitchClasses :
    (llmChordOfResponse { root := "C", notes := ["E", "G"] }).map
      (fun c => c.pitchClasses.contains c.root.pitchClass) = some false := by
  decide

/-- Values reached through a successful association-list lookup satisfy any
property holding of every entry. -/
lemma lookup_forall {β : Type} (P : β → Prop) :
    ∀ (l : List (String × β)), (∀ p ∈ l, P p.2) →
      ∀ s v, l.lookup s = some v → P v := by
  intro l
  induction l with
  | nil =>
    intro _ s v h
    simp [List.lookup] at h
  | cons a t ih =>
    intro hall s v h
    obtain ⟨k, b⟩ := a
    rw [List.lookup] at h
    cases hsk : s == k
    · simp only [hsk] at h
      exact ih (fun p hp => hall p (List.mem_cons_of_mem _ hp)) s v h
    · simp only [hsk] at h
      injection h with h2
      exact h2 ▸ hall (k, b) (List.mem_cons_self _ _)

lemma parseNote_pitchClass_lt {s : String} {p : ParsedNote}
    (h : parseNote s = some p) : p.pitchClass < 12 := by
  unfold parseNote at h
  split at h
  · exact Option.noConfusion h
  · split at h
    · rw [Option.bind_eq_some] at h
      obtain ⟨oct, _, h2⟩ := h
      rw [Option.map_eq_some'] at h2
      obtain ⟨pc, hpc, h3⟩ := h2
      have hlt : pc < 12 :=
        lookup_forall (fun v => v < 12) NOTE_TO_PC (by decide) _ _ hpc
      rw [← h3]
      exact hlt
    · exact Option.noConfusion h

lemma mem_addExtension {x : Nat} {l : List Nat} (e : Nat) (h : x ∈ l) :
    x ∈ addExtension l e := by
  unfold addExtension
  split
  · exact h
  · exact List.mem_append_left _ h

lemma mem_replaceFirst_of_ne {x a b : Nat} (hne : x ≠ a) :
    ∀ {l : List Nat}, x ∈ l → x ∈ replaceFirst l a b := by
  intro l
  induction l with
  | nil => intro h; exact absurd h (List.not_mem_nil x)
  | cons y ys ih =>
    intro h
    by_cases hy : y = a
    · rw [replaceFirst, if_pos hy]
      rcases List.mem_cons.mp h with rfl | h2
      · exact absurd hy hne
      · exact List.mem_cons_of_mem _ h2
    · rw [replaceFirst, if_neg hy]
      rcases List.mem_cons.mp h with rfl | h2
      · exact List.mem_cons_self _ _
      · exact List.mem_cons_of_mem _ (ih h2)

lemma zero_mem_replaceFirst7 {b : Nat} {l : List Nat} (h : 0 ∈ l) :
    0 ∈ replaceFirst l 7 b :=
  mem_replaceFirst_of_ne (by decide) h

lemma zero_mem_ite_add {l : List Nat} {c : Prop} [Decidable c] {e : Nat}
    (h : 0 ∈ l) : 0 ∈ (if c then addExtension l e else l) := by
  split
  · exact mem_addExtension e h
  · exact h

lemma zero_mem_ite_rep {l : List Nat} {c : Prop} [Decidable c] {b : Nat}
    (h : 0 ∈ l) : 0 ∈ (if c then replaceFirst l 7 b else l) := by
  split
  · exact zero_mem_replaceFirst7 h
  · exact h

lemma zero_mem_seventh_step {l : List Nat} {c1 c2 : Prop} [Decidable c1]
    [Decidable c2] {e1 e2 : Nat} (h : 0 ∈ l) :
    0 ∈ (if c1 then addExtension l e1
         else if c2 then addExtension l e2 else l) := by
  split
  · exact mem_addExtension e1 h
  · exact zero_mem_ite_add h

/-- The extension pipeline only adds intervals or replaces the fifth, so the
root interval 0 survives. -/
lemma zero_mem_chordIntervals {q : String} {base : List Nat} {r : String}
    (h : 0 ∈ base) : 0 ∈ chordIntervals q base r := by
  unfold chordIntervals
  exact zero_mem_ite_rep (zero_mem_ite_rep (zero_mem_ite_add (zero_mem_ite_add
    (zero_mem_ite_add (zero_mem_ite_add (zero_mem_ite_add
      (zero_mem_seventh_step h)))))))

lemma mem_foldl_insertUnique :
    ∀ (m : List Nat) (acc : List Nat) (x : Nat),
      x ∈ m ∨ x ∈ acc → x ∈ m.foldl insertUnique acc := by
  intro m
  induction m with
  | nil =>
    intro acc x h
    rcases h with h | h
    · exact absurd h (List.not_mem_nil x)
    · exact h
  | cons b t ih =>
    intro acc x h
    rw [List.foldl_cons]
    apply ih
    rcases h with h | h
    · rcases List.mem_cons.mp h with rfl | h2
      · right
        unfold insertUnique
        split
        · assumption
        · exact List.mem_append_right _ (List.mem_singleton_self _)
      · left
        exact h2
    · right
      unfold insertUnique
      split
      · exact h
      · exact List.mem_append_left _ h

lemma mem_uniquePitchClasses {l : List Nat} {a : Nat} (h : a ∈ l) :
    ((a % 12) + 12) % 12 ∈ uniquePitchClasses l := by
  unfold uniquePitchClasses
  exact mem_foldl_insertUnique _ _ _ (Or.inl (List.mem_map_of_mem _ h))

/-- C5 amended: every chord produced by the local grammar satisfies the
invariant `root.pitchClass ∈ pitchClasses`; the LLM route's translation does
not enforce it (see the counterexample), so the invariant is guaranteed for
`parseChordLocally` output only. -/
theorem parseChordLocally_root_mem_pitchClasses (s : String) (c : ParsedChord)
    (h : parseChordLocally s = some c) :
    c.root.pitchClass ∈ c.pitchClasses := by
  unfold parseChordLocally at h
  rw [Option.bind_eq_some] at h
  obtain ⟨rs, _, h⟩ := h
  rw [Option.bind_eq_some] at h
  obtain ⟨root, hroot, h⟩ := h
  rw [Option.map_eq_some'] at h
  obtain ⟨base, hbase, h⟩ := h
  subst h
  dsimp only
  have hrootlt : root.pitchClass < 12 := parseNote_pitchClass_lt hroot
  have h0 : (0 : Nat) ∈ chordIntervals (qualitySplit (jsTrim rs.2)).1 base
      (qualitySplit (jsTrim rs.2)).2 :=
    zero_mem_chordIntervals
      (lookup_forall (fun b => 0 ∈ b) QUALITY_MAP (by decide) _ _ hbase)
  have harith : ∀ n : Nat, n < 12 →
      ((((n + 0) % 12) + 12) % 12 = n) ∧ (((n % 12) + 12) % 12 = n) := by
    intro n hn
    omega
  have hmem : root.pitchClass ∈ List.map
      (fun i => (((root.pitchClass + i) % 12) + 12) % 12)
      (chordIntervals (qualitySplit (jsTrim rs.2)).1 base
        (qualitySplit (jsTrim rs.2)).2) := by
    have h1 := List.mem_map_of_mem
      (fun i => (((root.pitchClass + i) % 12) + 12) % 12) h0
    rwa [show (fun i => (((root.pitchClass + i) % 12) + 12) % 12) 0 =
      root.pitchClass from (harith _ hrootlt).1] at h1
  have h2 := mem_uniquePitchClasses hmem
  rwa [(harith _ hrootlt).2] at h2

/-- C5 amended, witness at `"C"`. -/
theorem parseChordLocally_root_mem_pitchClasses_witness :
    parseChordLocally "C" =
      some { root := { name := "C", pitchClass := 0, octave := none }
             pitchClasses := [0, 4, 7]
             label := "C"
             source := .localSrc } ∧
    (0 : Nat) ∈ [0, 4, 7] :=
  ⟨by decide,
    parseChordLocally_root_mem_pitchClasses "C"
      { root := { name := "C", pitchClass := 0, octave := none }
        pitchClasses := [0, 4, 7]
        label := "C"
        source := .localSrc } (by decide)⟩

/-- C6: the 24 built-in key labels come from the root-specific enharmonic
tables (flat spellings for conventionally flat keys); in particular pitch
class 3 in major mode is labeled `"Eb major"`, not `"D# major"` (which the
global sharp-preferring name table would produce). -/
theorem keyLabels_use_enharmonic_tables :
    ALL_KEYS.map (fun k => k.label) =
      ["C major", "C minor", "Db major", "C# minor", "D major", "D minor",
       "Eb major", "Eb minor", "E major", "E minor", "F major", "F minor",
       "F# major", "F# minor", "G major", "G minor", "Ab major", "G# minor",
       "A major", "A minor", "Bb major", "Bb minor", "B major", "B minor"] ∧
    (keySetFromRoot 3 .major).label = "Eb major" ∧
    ((keySetFromRoot 3 .major).label == "D# major") = false ∧
    pitchClassToName 3 = "D#" := by
  refine ⟨?_, ?_, ?_, ?_⟩ <;> decide

/-- C8: for every root pitch class, the major scale contains the root, has 7
distinct members, and is exactly the interval pattern
`{0, 2, 4, 5, 7, 9, 11}` applied to the root modulo 12. -/
theorem keySetFromRoot_major_scale_pattern (pc : Nat) (hpc : pc < 12) :
    pc ∈ (keySetFromRoot pc .major).scale ∧
    (keySetFromRoot pc .major).scale.Nodup ∧
    (keySetFromRoot pc .major).scale.length = 7 ∧
    (keySetFromRoot pc .major).scale =
      [(pc + 0) % 12, (pc + 2) % 12, (pc + 4) % 12, (pc + 5) % 12,
       (pc + 7) % 12, (pc + 9) % 12, (pc + 11) % 12] := by
  revert hpc
  revert pc
  decide

/-- C8 witness at `pc = 3`. -/
theorem keySetFromRoot_major_scale_pattern_witness :
    3 < 12 ∧
    (3 ∈ (keySetFromRoot 3 .major).scale ∧
      (keySetFromRoot 3 .major).scale.Nodup ∧
      (keySetFromRoot 3 .major).scale.length = 7 ∧
      (keySetFromRoot 3 .major).scale =
        [(3 + 0) % 12, (3 + 2) % 12, (3 + 4) % 12, (3 + 5) % 12,
         (3 + 7) % 12, (3 + 9) % 12, (3 + 11) % 12]) :=
  ⟨by decide, keySetFromRoot_major_scale_pattern 3 (by decide)⟩

lemma fretForFraction_one_two : fretForFraction 1 2 = 12 := by
  unfold fretForFraction
  rw [show (1 : ℝ) - ((1 : ℕ) : ℝ) / ((2 : ℕ) : ℝ) = (2 : ℝ)⁻¹ by norm_num,
    Real.logb_inv, Real.logb_self_eq_one (by norm_num)]
  norm_num

lemma round_twelve_logb_two : round ((12 : ℝ) * Real.logb 2 ((2 : ℕ) : ℝ)) = 12 := by
  rw [show ((2 : ℕ) : ℝ) = (2 : ℝ) by norm_num,
    Real.logb_self_eq_one (by norm_num),
    show (12 : ℝ) * 1 = ((12 : ℕ) : ℝ) by norm_num,
    round_natCast]
  norm_num

/-- Once the search has hit error 0, no later pair strictly improves, so the
fold keeps the recorded point. -/
lemma overtoneFold_stable : ∀ (t : List (Nat × Nat)) (b : HarmonicPoint),
    t.foldl (overtoneStep 12) (b, some (0 : ℝ)) = (b, some 0) := by
  intro t
  induction t with
  | nil => intro b; rfl
  | cons p ps ih =>
    intro b
    rw [List.foldl_cons]
    have hstep : overtoneStep 12 (b, some (0 : ℝ)) p = (b, some 0) := by
      unfold overtoneStep
      dsimp only
      rw [if_neg (not_lt.mpr (abs_nonneg _))]
    rw [hstep, ih]

/-- C7: the search over fraction pairs `k/n` (`n` 2..12, `k` 1..n−1) at
candidate fret 12 is won immediately by the octave node `1/2` (whose
theoretical position `-12·log2(1/2)` is exactly 12, error 0, and no later
pair strictly improves), so the recorded point has `partial` 2 and
`semitoneShift = round(12·log2 2) = 12`; `HARMONIC_POINTS` holds it at index
5, the position of candidate fret 12 in `HARMONIC_FRETS`. -/
theorem harmonicPoint_at_fret12 :
    nearestOvertone 12 = { fret := 12, overtone := 2, semitoneShift := 12 } ∧
    HARMONIC_POINTS.getD 5 { fret := 0, overtone := 0, semitoneShift := 0 } =
      { fret := 12, overtone := 2, semitoneShift := 12 } := by
  have hmain : nearestOvertone 12 =
      { fret := 12, overtone := 2, semitoneShift := 12 } := by
    unfold nearestOvertone
    rw [show overtonePairs = (2, 1) :: overtonePairs.tail from by decide,
      List.foldl_cons]
    have hstep : overtoneStep 12 (⟨12, 2, 12⟩, none) (2, 1) =
        (⟨12, 2, 12⟩, some (0 : ℝ)) := by
      unfold overtoneStep
      dsimp only
      rw [round_twelve_logb_two, fretForFraction_one_two]
      norm_num
    rw [hstep, overtoneFold_stable]
  refine ⟨hmain, ?_⟩
  rw [show HARMONIC_POINTS.getD 5 { fret := 0, overtone := 0, semitoneShift := 0 } =
    nearestOvertone 12 from rfl, hmain]

lemma midiToNote_pitchClass_lt (m : Int) (ps : Bool) :
    (midiToNote m ps).pitchClass < 12 := by
  show (((m % 12) + 12) % 12).toNat < 12
  omega

lemma natNorm_of_lt {n : Nat} (h : n < 12) : ((n % 12) + 12) % 12 = n := by
  omega

/-- C9: every marker built by `buildFretboardHarmonics` carries
`isInKey`/`isRoot`/`inChord` flags that hold exactly when its pitch class is
in the active key's scale / equals the active key's root / is in the active
chord's pitch classes; with no active key and no active chord all three
flags are false on every marker. -/
theorem buildFretboardHarmonics_flags :
    (∀ (tuning : List StringNote) (key : Option KeySignature)
        (chord : Option ParsedChord),
      List.Forall (fun m : EnrichedHarmonic =>
        (m.isInKey = true ↔ ∃ k, key = some k ∧ m.pitchClass ∈ k.scale) ∧
        (m.isRoot = true ↔ ∃ k, key = some k ∧ m.pitchClass = k.root) ∧
        (m.inChord = true ↔ ∃ c, chord = some c ∧ m.pitchClass ∈ c.pitchClasses))
        (buildFretboardHarmonics tuning key chord)) ∧
    (∀ tuning : List StringNote,
      List.Forall (fun m : EnrichedHarmonic =>
        m.isInKey = false ∧ m.isRoot = false ∧ m.inChord = false)
        (buildFretboardHarmonics tuning none none)) := by
  constructor
  · intro tuning key chord
    rw [List.forall_iff_forall_mem]
    intro m hm
    unfold buildFretboardHarmonics at hm
    rw [List.mem_flatMap] at hm
    obtain ⟨p, _, hm⟩ := hm
    rw [List.mem_map] at hm
    obtain ⟨h, hh, rfl⟩ := hm
    unfold computeHarmonicsForString at hh
    rw [List.mem_map] at hh
    obtain ⟨pt, _, rfl⟩ := hh
    have hlt := midiToNote_pitchClass_lt (p.2.midi + pt.semitoneShift) true
    refine ⟨?_, ?_, ?_⟩
    · cases key with
      | none => simp
      | some k =>
        dsimp only [isPitchClassInKey]
        rw [natNorm_of_lt hlt]
        simp
    · cases key with
      | none => simp
      | some k => simp
    · cases chord with
      | none => simp
      | some c => simp
  · intro tuning
    rw [List.forall_iff_forall_mem]
    intro m hm
    unfold buildFretboardHarmonics at hm
    rw [List.mem_flatMap] at hm
    obtain ⟨p, _, hm⟩ := hm
    rw [List.mem_map] at hm
    obtain ⟨h, _, rfl⟩ := hm
    exact ⟨rfl, rfl, rfl⟩

/-- C10: note parsing is stable under round-trip through display naming, and
for each of the 12 pitch classes the sharp and the flat spelling parse to
the same pitch class. -/
theorem parseNote_roundtrip_and_enharmonics :
    (∀ (t : String) (p : ParsedNote), parseNote t = some p →
      (parseNote (pitchClassToName p.pitchClass)).map (fun q => q.pitchClass) =
        some p.pitchClass) ∧
    (∀ i, i < 12 →
      (parseNote (SHARP_NAMES.getD i "")).map (fun q => q.pitchClass) = some i ∧
      (parseNote (FLAT_NAMES.getD i "")).map (fun q => q.pitchClass) = some i) := by
  constructor
  · intro t p h
    have hlt : p.pitchClass < 12 := parseNote_pitchClass_lt h
    have hall : ∀ n : Nat, n < 12 →
        (parseNote (pitchClassToName n)).map (fun q => q.pitchClass) = some n := by
      decide
    exact hall _ hlt
  · decide

/-- C10 witness: the flat spelling `"Db"` parses to pitch class 1, whose
sharp display name `"C#"` parses back to 1; plus both spellings of pitch
class 1 agree. -/
theorem parseNote_roundtrip_witness :
    parseNote "Db" = some { name := "Db", pitchClass := 1, octave := none } ∧
    (parseNote (pitchClassToName 1)).map (fun q => q.pitchClass) = some 1 ∧
    (1 < 12 ∧
      (parseNote (SHARP_NAMES.getD 1 "")).map (fun q => q.pitchClass) = some 1 ∧
      (parseNote (FLAT_NAMES.getD 1 "")).map (fun q => q.pitchClass) = some 1) :=
  ⟨by decide,
    parseNote_roundtrip_and_enharmonics.1 "Db"
      { name := "Db", pitchClass := 1, octave := none } (by decide),
    ⟨by decide, parseNote_roundtrip_and_enharmonics.2 1 (by decide)⟩⟩

end HarmonicVisualizer
